import Mathlib

/-!
Verification of the ESPAsyncWebServer request/response core.

Arduino `String` objects are modelled as byte lists (`List Nat`), matching
the byte-level character handling of the C++ code.  Each definition embeds
the source function of the same name from `src/ESPAsyncWebServer.h`; where
only a declaration appears in the header, the definition is modelled from
the specification and says so in its doc comment.
-/

/-- A byte string: the value of an Arduino `String`. -/
abbrev Str := List Nat

/-- Convert a Lean string literal to its byte-list value (ASCII). -/
def bytes (s : String) : Str := s.data.map Char.toNat

/-- Embeds Arduino `String::indexOf(char)`: index of the first occurrence of
byte `c`, `none` when absent (the C++ `-1`). -/
def strIndexOf (s : Str) (c : Nat) : Option Nat :=
  match s with
  | [] => none
  | b :: rest => if b = c then some 0 else (strIndexOf rest c).map (· + 1)

/-- A stored header: `(name, value)` pair, `class AsyncWebHeader`. -/
structure AsyncWebHeader where
  name : Str
  value : Str
deriving DecidableEq, Repr

/-- Embeds the constructor `AsyncWebHeader(const String& data)`: no colon
gives empty name and value; otherwise `_name = data.substring(0, index)` and
`_value = data.substring(index + 2)`. -/
def AsyncWebHeader.fromData (data : Str) : AsyncWebHeader :=
  match strIndexOf data 58 with
  | none => ⟨[], []⟩
  | some index => ⟨data.take index, data.drop (index + 2)⟩

/-- The header constructor as the specification words it: the value is
preserved verbatim except that the single leading space after the colon is
stripped. -/
def AsyncWebHeader.fromDataSpec (data : Str) : AsyncWebHeader :=
  match strIndexOf data 58 with
  | none => ⟨[], []⟩
  | some index =>
    match data.drop (index + 1) with
    | 32 :: tail => ⟨data.take index, tail⟩
    | rest => ⟨data.take index, rest⟩

/-- A request parameter, `class AsyncWebParameter` (name, value, size,
isForm, isFile). -/
structure AsyncWebParameter where
  name : Str
  value : Str
  size : Nat
  isForm : Bool
  isFile : Bool
deriving DecidableEq, Repr

/-- A request as the rewrite and lookup layers see it: current URL and the
ordered parameter list. -/
structure RequestM where
  url : Str
  params : List AsyncWebParameter

/-- A URL rewrite rule, `class AsyncWebRewrite`: `_from`, `_toUrl`,
`_params` and the optional `_filter` function (`NULL` when absent). -/
structure AsyncWebRewrite where
  fromUrl : Str
  toUrl : Str
  params : Str
  filter : Option (RequestM → Bool)

/-- Embeds the constructor `AsyncWebRewrite(const char* from, const char*
to)`: `_toUrl` is split at the first `'?'` only when `indexOf('?') > 0`;
the suffix after the `'?'` becomes `_params`; `_filter` starts `NULL`. -/
def AsyncWebRewrite.mk' (fromStr toStr : Str) : AsyncWebRewrite :=
  match strIndexOf toStr 63 with
  | some index =>
    if index > 0 then ⟨fromStr, toStr.take index, toStr.drop (index + 1), none⟩
    else ⟨fromStr, toStr, [], none⟩
  | none => ⟨fromStr, toStr, [], none⟩

/-- ASCII lower-casing of one byte, as `String::equalsIgnoreCase` compares. -/
def charLower (b : Nat) : Nat := if 65 ≤ b ∧ b ≤ 90 then b + 32 else b

/-- Lower-case an entire byte string. -/
def lowerStr (s : Str) : Str := s.map charLower

/-- Embeds `String::equalsIgnoreCase`: ASCII-case-insensitive equality. -/
def equalsIgnoreCase (a b : Str) : Bool := lowerStr a == lowerStr b

/-- Modelled from the spec: `AsyncWebServerRequest::getHeader(name)` (body
not under `src/`) walks the ordered header list and returns the first entry
whose name matches case-insensitively, `nullptr` (here `none`) otherwise. -/
def getHeaderByName (hs : List AsyncWebHeader) (name : Str) :
    Option AsyncWebHeader :=
  hs.find? (fun h => equalsIgnoreCase h.name name)

/-- Embeds `hasHeader(name)`: whether `getHeader(name)` is non-null. -/
def hasHeaderModel (hs : List AsyncWebHeader) (name : Str) : Bool :=
  (getHeaderByName hs name).isSome

/-- Parsing appends each arriving header to the ordered list (`_headers`),
never coalescing repeats. -/
def addHeaderModel (hs : List AsyncWebHeader) (h : AsyncWebHeader) :
    List AsyncWebHeader := hs ++ [h]

/-- A concrete header list: `Host` appearing twice with different values. -/
def twoHostHeaders : List AsyncWebHeader :=
  [⟨bytes "Host", bytes "a"⟩, ⟨bytes "HOST", bytes "b"⟩]

/-- The process-wide `emptyString` object that the total accessors return a
reference to. -/
def emptyStringM : Str := []

/-- Modelled from the spec: `getParam(size_t num)` (body not under `src/`)
returns the `i`-th entry of the ordered parameter list, null past the end. -/
def getParamIdx (ps : List AsyncWebParameter) (i : Nat) :
    Option AsyncWebParameter := ps[i]?

/-- Embeds `arg(size_t i)`: `getParam(i)->value()` with no null check;
`none` models the unchecked null dereference. -/
def argIdx (ps : List AsyncWebParameter) (i : Nat) : Option Str :=
  (getParamIdx ps i).map AsyncWebParameter.value

/-- Embeds `argName(size_t i)`: `getParam(i)->name()` with no null check. -/
def argNameIdx (ps : List AsyncWebParameter) (i : Nat) : Option Str :=
  (getParamIdx ps i).map AsyncWebParameter.name

/-- Embeds `getHeader(size_t num)`: the `i`-th header or null. -/
def getHeaderIdx (hs : List AsyncWebHeader) (i : Nat) :
    Option AsyncWebHeader := hs[i]?

/-- Embeds `header(size_t i)`: `h ? h->value() : emptyString`. -/
def headerIdx (hs : List AsyncWebHeader) (i : Nat) : Str :=
  match getHeaderIdx hs i with
  | some h => h.value
  | none => emptyStringM

/-- Embeds `headerName(size_t i)`: `h ? h->name() : emptyString`. -/
def headerNameIdx (hs : List AsyncWebHeader) (i : Nat) : Str :=
  match getHeaderIdx hs i with
  | some h => h.name
  | none => emptyStringM

/-- Embeds `pathArg(size_t i)`: `param ? **param : emptyString`. -/
def pathArgIdx (pp : List Str) (i : Nat) : Str :=
  match pp[i]? with
  | some s => s
  | none => emptyStringM

/-- A concrete parameter: name `x`, value `1`, a plain query parameter. -/
def paramX : AsyncWebParameter := ⟨bytes "x", bytes "1", 0, false, false⟩

/-- Embeds the match performed for `getParam(name, post, file)`: name
equality together with the `isPost` and `isFile` flags. -/
def paramMatches (p : AsyncWebParameter) (name : Str) (post file : Bool) :
    Bool :=
  p.name == name && p.isForm == post && p.isFile == file

/-- Modelled from the spec: `getParam(name, post, file)` (body not under
`src/`) returns the first parameter of the ordered list matching name and
flags, null otherwise. -/
def getParamByName (ps : List AsyncWebParameter) (name : Str)
    (post file : Bool) : Option AsyncWebParameter :=
  ps.find? (fun p => paramMatches p name post file)

/-- Embeds `arg(name)`: `getParam(name)->value()` when found, otherwise the
reference to `emptyString`; `none` models that distinguished reference. -/
def argByName (ps : List AsyncWebParameter) (name : Str) : Option Str :=
  (getParamByName ps name false false).map AsyncWebParameter.value

/-- Embeds `header(name)`: `h ? h->value() : emptyString`, with `none`
modelling the reference to `emptyString`. -/
def headerValByName (hs : List AsyncWebHeader) (name : Str) : Option Str :=
  (getHeaderByName hs name).map AsyncWebHeader.value

/-- Embeds `hasArg` / `argExists`: address identity of the returned
reference with `emptyString`, i.e. whether the lookup found a stored value. -/
def hasArgModel (ps : List AsyncWebParameter) (name : Str) : Bool :=
  (argByName ps name).isSome

/-- A parameter whose stored value is the empty string. -/
def paramEmptyVal : AsyncWebParameter := ⟨bytes "e", [], 0, false, false⟩

/-- The URL-decoding error enum,
`AsyncWebServerRequest::UrlDecodeErrorType`. -/
inductive UrlDecodeErrorType
  | NONE
  | NOT_ENOUGH_DIGITS
  | INVALID_CHARACTERS
deriving DecidableEq, Repr

/-- Whether a byte is an ASCII hexadecimal digit. -/
def isHexByte (b : Nat) : Bool :=
  decide (48 ≤ b ∧ b ≤ 57) || decide (65 ≤ b ∧ b ≤ 70) ||
    decide (97 ≤ b ∧ b ≤ 102)

/-- Numeric value of a hexadecimal digit byte. -/
def hexValByte (b : Nat) : Nat :=
  if 48 ≤ b ∧ b ≤ 57 then b - 48
  else if 65 ≤ b ∧ b ≤ 70 then b - 55
  else if 97 ≤ b ∧ b ≤ 102 then b - 87
  else 0

mutual

/-- Modelled from the spec: the core of `AsyncWebServerRequest::urlDecode`
(body not under `src/`): percent-decoding with `'+'` mapped to space; the
percent case is handled by `urlDecodePercent`. -/
def urlDecodeCore : Str → Except UrlDecodeErrorType Str
  | [] => .ok []
  | b :: rest =>
    if b = 37 then urlDecodePercent rest
    else if b = 43 then
      match urlDecodeCore rest with
      | .ok s => .ok (32 :: s)
      | .error e => .error e
    else
      match urlDecodeCore rest with
      | .ok s => .ok (b :: s)
      | .error e => .error e

/-- Modelled from the spec: what follows a `'%'`: fewer than two bytes left
fails with `NOT_ENOUGH_DIGITS`; two bytes that are not both hex digits fail
with `INVALID_CHARACTERS`; two hex digits decode to one byte. -/
def urlDecodePercent : Str → Except UrlDecodeErrorType Str
  | [] => .error .NOT_ENOUGH_DIGITS
  | [_] => .error .NOT_ENOUGH_DIGITS
  | h1 :: h2 :: tail =>
    if isHexByte h1 && isHexByte h2 then
      match urlDecodeCore tail with
      | .ok s => .ok ((hexValByte h1 * 16 + hexValByte h2) :: s)
      | .error e => .error e
    else .error .INVALID_CHARACTERS

end

/-- Embeds the documented contract of `urlDecode` (src lines 386-389): on
any error the error is stored in the out-parameter and an empty string is
returned; on success the out-parameter is set to `NONE`.  The pair is
(returned string, stored error). -/
def urlDecode (text : Str) : Str × UrlDecodeErrorType :=
  match urlDecodeCore text with
  | .ok s => (s, .NONE)
  | .error e => ([], e)

/-- Whether a byte is unreserved in a URL: ASCII alphanumeric or one of
`-`, `_`, `.`, `~`. -/
def isUnreservedByte (b : Nat) : Bool :=
  decide (48 ≤ b ∧ b ≤ 57) || decide (65 ≤ b ∧ b ≤ 90) ||
    decide (97 ≤ b ∧ b ≤ 122) || decide (b = 45) || decide (b = 95) ||
    decide (b = 46) || decide (b = 126)

/-- The upper-case hexadecimal digit byte for a nibble. -/
def hexDigitUpper (n : Nat) : Nat := if n < 10 then n + 48 else n + 55

/-- Modelled from the spec: `urlEncode` (no body under `src/`): unreserved
bytes pass through, every other byte is emitted as `'%'` followed by two
upper-case hexadecimal digits. -/
def urlEncode : Str → Str
  | [] => []
  | b :: rest =>
    if isUnreservedByte b then b :: urlEncode rest
    else 37 :: hexDigitUpper (b / 16) :: hexDigitUpper (b % 16) :: urlEncode rest

/-- `HTTP_GET` from `WebRequestMethod`. -/
def HTTP_GET : Nat := 1
/-- `HTTP_POST` from `WebRequestMethod`. -/
def HTTP_POST : Nat := 2
/-- `HTTP_DELETE` from `WebRequestMethod`. -/
def HTTP_DELETE : Nat := 4
/-- `HTTP_PUT` from `WebRequestMethod`. -/
def HTTP_PUT : Nat := 8
/-- `HTTP_PATCH` from `WebRequestMethod`. -/
def HTTP_PATCH : Nat := 16
/-- `HTTP_HEAD` from `WebRequestMethod`. -/
def HTTP_HEAD : Nat := 32
/-- `HTTP_OPTIONS` from `WebRequestMethod`. -/
def HTTP_OPTIONS : Nat := 64
/-- `HTTP_ANY` from `WebRequestMethod`. -/
def HTTP_ANY : Nat := 127

/-- The seven single-method bit constants in declaration order. -/
def methodBits : List Nat :=
  [HTTP_GET, HTTP_POST, HTTP_DELETE, HTTP_PUT, HTTP_PATCH, HTTP_HEAD,
   HTTP_OPTIONS]

/-- Modelled from the spec: the request-line parser (`_parseReqHead`, body
not under `src/`) maps the method token to its bitmask and fails on unknown
methods. -/
def parseMethodToken (tok : Str) : Option Nat :=
  if tok = bytes "GET" then some HTTP_GET
  else if tok = bytes "POST" then some HTTP_POST
  else if tok = bytes "DELETE" then some HTTP_DELETE
  else if tok = bytes "PUT" then some HTTP_PUT
  else if tok = bytes "PATCH" then some HTTP_PATCH
  else if tok = bytes "HEAD" then some HTTP_HEAD
  else if tok = bytes "OPTIONS" then some HTTP_OPTIONS
  else none

/-- Embeds `AsyncWebRewrite::filter(request)`:
`_filter == NULL || _filter(request)`. -/
def AsyncWebRewrite.filterPass (r : AsyncWebRewrite) (req : RequestM) :
    Bool :=
  match r.filter with
  | none => true
  | some f => f req

/-- Embeds `AsyncWebRewrite::match(request)`:
`from() == request->url() && filter(request)`. -/
def AsyncWebRewrite.matchReq (r : AsyncWebRewrite) (req : RequestM) : Bool :=
  (r.fromUrl == req.url) && r.filterPass req

/-- Split a byte string at every occurrence of the separator byte. -/
def splitOnByte (sep : Nat) : Str → List Str
  | [] => [[]]
  | b :: rest =>
    let r := splitOnByte sep rest
    if b = sep then [] :: r
    else
      match r with
      | [] => [[b]]
      | s :: ss => (b :: s) :: ss

/-- Modelled from the spec: the query-parameter tokeniser behind
`_addGetParams` (body not under `src/`): split on `'&'`, then split each
non-empty token at its first `'='` into name and value; query parameters
carry `isForm = false`, `isFile = false`. -/
def parseQueryParams (s : Str) : List AsyncWebParameter :=
  (splitOnByte 38 s).filterMap fun tok =>
    if tok = [] then none
    else
      match strIndexOf tok 61 with
      | some i => some ⟨tok.take i, tok.drop (i + 1), 0, false, false⟩
      | none => some ⟨tok, [], 0, false, false⟩

/-- Modelled from the spec: applying a matched rewrite replaces the URL with
`toUrl` and merges the rewrite's extra query parameters into the request's
parameter list. -/
def applyRewrite (r : AsyncWebRewrite) (req : RequestM) : RequestM :=
  { url := r.toUrl, params := req.params ++ parseQueryParams r.params }

/-- Modelled from the spec: `_rewriteRequest` (body not under `src/`):
iterate the rewrites in insertion order; the first whose `match` passes is
applied and no further rewrite is considered — first match wins, rewrites do
not chain. -/
def rewriteRequest (rs : List AsyncWebRewrite) (req : RequestM) : RequestM :=
  match rs with
  | [] => req
  | r :: rest =>
    if r.matchReq req then applyRewrite r req else rewriteRequest rest req

/-- A concrete rewrite taking `/old` to `/new` with extra parameter `x=1`. -/
def rwOld : AsyncWebRewrite :=
  AsyncWebRewrite.mk' (bytes "/old") (bytes "/new?x=1")

/-- A concrete request currently at `/old` with no parameters. -/
def reqOld : RequestM := ⟨bytes "/old", []⟩

/-- The response states, `WebResponseState`. -/
inductive WebResponseState
  | RESPONSE_SETUP
  | RESPONSE_HEADERS
  | RESPONSE_CONTENT
  | RESPONSE_WAIT_ACK
  | RESPONSE_END
  | RESPONSE_FAILED
deriving DecidableEq, Repr

open WebResponseState

/-- The response bookkeeping, `AsyncWebServerResponse`: state plus the
`_headLength`, `_contentLength`, `_sentLength`, `_ackedLength` and
`_writtenLength` counters. -/
structure ResponseSt where
  state : WebResponseState
  headLength : Nat
  contentLength : Nat
  sentLength : Nat
  ackedLength : Nat
  writtenLength : Nat
deriving DecidableEq, Repr

/-- A fresh response in `RESPONSE_SETUP` with zeroed counters. -/
def initResponse (head content : Nat) : ResponseSt :=
  ⟨RESPONSE_SETUP, head, content, 0, 0, 0⟩

/-- Modelled from the spec: one transport event of the response pipeline
(`_respond` / `_ack` bodies not under `src/`).  `RespStep r n r'` says that
from `r` the event emits `n` bytes into the transport and leaves `r'`:
`respond` writes head bytes and moves to HEADERS; an ack in HEADERS retries
deferred head bytes and moves to CONTENT once the head is fully acked; an
ack in CONTENT emits body bytes within the head+content budget and moves to
WAIT_ACK when the last body byte is pushed; an ack in WAIT_ACK moves to END
once everything is acked; any failure moves to FAILED; events reaching a
finished or failed response emit nothing.  Acks never exceed what was
written. -/
inductive RespStep : ResponseSt → Nat → ResponseSt → Prop
  | respond (r : ResponseSt) (n : Nat) :
      r.state = RESPONSE_SETUP →
      r.writtenLength + n ≤ r.headLength →
      RespStep r n
        { r with
          state := RESPONSE_HEADERS
          sentLength := r.sentLength + n
          writtenLength := r.writtenLength + n }
  | ackHead (r : ResponseSt) (a n : Nat) :
      r.state = RESPONSE_HEADERS →
      r.ackedLength + a ≤ r.writtenLength →
      r.writtenLength + n ≤ r.headLength →
      RespStep r n
        { r with
          state :=
            if r.ackedLength + a = r.headLength then RESPONSE_CONTENT
            else RESPONSE_HEADERS
          ackedLength := r.ackedLength + a
          sentLength := r.sentLength + n
          writtenLength := r.writtenLength + n }
  | ackContent (r : ResponseSt) (a n : Nat) :
      r.state = RESPONSE_CONTENT →
      r.ackedLength + a ≤ r.writtenLength →
      r.writtenLength + n ≤ r.headLength + r.contentLength →
      RespStep r n
        { r with
          state :=
            if r.writtenLength + n = r.headLength + r.contentLength then
              RESPONSE_WAIT_ACK
            else RESPONSE_CONTENT
          ackedLength := r.ackedLength + a
          sentLength := r.sentLength + n
          writtenLength := r.writtenLength + n }
  | ackWait (r : ResponseSt) (a : Nat) :
      r.state = RESPONSE_WAIT_ACK →
      r.ackedLength + a ≤ r.writtenLength →
      RespStep r 0
        { r with
          state :=
            if r.ackedLength + a = r.headLength + r.contentLength then
              RESPONSE_END
            else RESPONSE_WAIT_ACK
          ackedLength := r.ackedLength + a }
  | idleEnd (r : ResponseSt) :
      r.state = RESPONSE_END → RespStep r 0 r
  | idleFailed (r : ResponseSt) :
      r.state = RESPONSE_FAILED → RespStep r 0 r
  | fail (r : ResponseSt) :
      r.state ≠ RESPONSE_END →
      RespStep r 0 { r with state := RESPONSE_FAILED }

/-- The states a response can reach from a fresh `initResponse` by events. -/
inductive RespReachable : ResponseSt → Prop
  | init (head content : Nat) : RespReachable (initResponse head content)
  | step (r : ResponseSt) (n : Nat) (r' : ResponseSt) :
      RespReachable r → RespStep r n r' → RespReachable r'

/-- The claimed counter invariant of a response. -/
def respInv (r : ResponseSt) : Prop :=
  r.ackedLength ≤ r.sentLength ∧ r.sentLength ≤ r.writtenLength ∧
    r.writtenLength ≤ r.headLength + r.contentLength

/-- Progress rank of a response state: END and FAILED are terminal. -/
def stateRank : WebResponseState → Nat
  | RESPONSE_SETUP => 0
  | RESPONSE_HEADERS => 1
  | RESPONSE_CONTENT => 2
  | RESPONSE_WAIT_ACK => 3
  | RESPONSE_END => 4
  | RESPONSE_FAILED => 4

/-- The strengthened inductive invariant: sent and written coincide and the
ack counter never passes them. -/
def respInvS (r : ResponseSt) : Prop :=
  r.ackedLength ≤ r.writtenLength ∧ r.sentLength = r.writtenLength ∧
    r.writtenLength ≤ r.headLength + r.contentLength

theorem strIndexOf_eq_none (s : Str) (c : Nat) :
    strIndexOf s c = none ↔ c ∉ s := by
  induction s with
  | nil => simp [strIndexOf]
  | cons b rest ih =>
    by_cases hb : b = c
    · simp [strIndexOf, hb]
    · simp [strIndexOf, hb, ih, Ne.symm hb]

theorem strIndexOf_append (pre post : Str) (c : Nat) (hpre : c ∉ pre) :
    strIndexOf (pre ++ c :: post) c = some pre.length := by
  induction pre with
  | nil => simp [strIndexOf]
  | cons b rest ih =>
    have hb : b ≠ c := by intro h; exact hpre (h ▸ List.mem_cons_self b rest)
    have hrest : c ∉ rest := fun h => hpre (List.mem_cons_of_mem b h)
    simp [strIndexOf, hb, ih hrest]

theorem take_append_self (pre post : Str) :
    (pre ++ post).take pre.length = pre := by
  induction pre with
  | nil => simp
  | cons b rest ih => simp [ih]

theorem drop_append_add (pre post : Str) (k : Nat) :
    (pre ++ post).drop (pre.length + k) = post.drop k := by
  induction pre with
  | nil => simp
  | cons b rest ih => simpa [Nat.succ_add] using ih

/-- C1 counterexample: on the raw line `"A:b"` (no space after the colon)
the code yields the value `""`, not the verbatim value `"b"` the claim
requires, so the constructor differs from the claimed behaviour. -/
theorem C1_counterexample :
    AsyncWebHeader.fromData (bytes "A:b") ≠ AsyncWebHeader.fromDataSpec (bytes "A:b") ∧
    (AsyncWebHeader.fromData (bytes "A:b")).value = [] := by
  constructor
  · decide
  · decide

/-- C1 (amended): splitting a raw line at its first colon, the name is the
substring before the colon and the value is the remainder after the colon
with its first character always removed (the code unconditionally starts the
value two characters past the colon); this coincides with
strip-single-leading-space exactly when the byte after the colon is a space
or nothing follows the colon; a line with no colon yields empty name and
empty value. -/
theorem C1_header_from_data (pre post : Str) (hpre : (58 : Nat) ∉ pre) :
    AsyncWebHeader.fromData (pre ++ 58 :: post) = ⟨pre, post.tail⟩ ∧
    ((∃ tail, post = 32 :: tail) ∨ post = [] →
      AsyncWebHeader.fromData (pre ++ 58 :: post) =
        AsyncWebHeader.fromDataSpec (pre ++ 58 :: post)) ∧
    (∀ data : Str, (58 : Nat) ∉ data → AsyncWebHeader.fromData data = ⟨[], []⟩) := by
  have hidx : strIndexOf (pre ++ 58 :: post) 58 = some pre.length :=
    strIndexOf_append pre post 58 hpre
  have htake : (pre ++ 58 :: post).take pre.length = pre := by
    have := take_append_self pre (58 :: post)
    simpa using this
  have hdrop1 : (pre ++ 58 :: post).drop (pre.length + 1) = post := by
    simpa using drop_append_add pre (58 :: post) 1
  have hdrop2 : (pre ++ 58 :: post).drop (pre.length + 2) = post.tail := by
    have h := drop_append_add pre (58 :: post) 2
    simpa [List.drop_one] using h
  refine ⟨?_, ?_, ?_⟩
  · simp [AsyncWebHeader.fromData, hidx, htake, hdrop2]
  · intro hpost
    rcases hpost with ⟨tail, htail⟩ | hnil
    · subst htail
      simp [AsyncWebHeader.fromData, AsyncWebHeader.fromDataSpec, hidx, htake,
        hdrop1, hdrop2]
    · subst hnil
      simp [AsyncWebHeader.fromData, AsyncWebHeader.fromDataSpec, hidx, htake,
        hdrop1, hdrop2]
  · intro data hdata
    have : strIndexOf data 58 = none := (strIndexOf_eq_none data 58).mpr hdata
    simp [AsyncWebHeader.fromData, this]

/-- C1 witness: the amended theorem evaluated on the concrete line
`"Host: h"`. -/
theorem C1_witness :
    AsyncWebHeader.fromData (bytes "Host" ++ 58 :: bytes " h") =
      ⟨bytes "Host", bytes "h"⟩ := by
  have h := (C1_header_from_data (bytes "Host") (bytes " h") (by decide)).1
  simpa using h

/-- C10: the rewrite constructor splits `to` at the first `'?'` exactly when
that `'?'` sits at a position strictly greater than zero, making the prefix
`toUrl` and the suffix `params`; with no `'?'`, or a leading `'?'`, the
whole string is `toUrl` and `params` is empty. -/
theorem C10_rewrite_ctor_split (f : Str) :
    (∀ pre post, (63 : Nat) ∉ pre → 0 < pre.length →
      AsyncWebRewrite.mk' f (pre ++ 63 :: post) = ⟨f, pre, post, none⟩) ∧
    (∀ u, (63 : Nat) ∉ u → AsyncWebRewrite.mk' f u = ⟨f, u, [], none⟩) ∧
    (∀ post, AsyncWebRewrite.mk' f (63 :: post) = ⟨f, 63 :: post, [], none⟩) := by
  refine ⟨?_, ?_, ?_⟩
  · intro pre post hpre hlen
    have hidx : strIndexOf (pre ++ 63 :: post) 63 = some pre.length :=
      strIndexOf_append pre post 63 hpre
    have htake : (pre ++ 63 :: post).take pre.length = pre :=
      take_append_self pre (63 :: post)
    have hdrop : (pre ++ 63 :: post).drop (pre.length + 1) = post := by
      simpa using drop_append_add pre (63 :: post) 1
    simp [AsyncWebRewrite.mk', hidx, htake, hdrop, hlen]
  · intro u hu
    have : strIndexOf u 63 = none := (strIndexOf_eq_none u 63).mpr hu
    simp [AsyncWebRewrite.mk', this]
  · intro post
    simp [AsyncWebRewrite.mk', strIndexOf]

/-- C10 witness: the constructor evaluated on `"/new?x=1"` and on `"/plain"`. -/
theorem C10_witness :
    AsyncWebRewrite.mk' (bytes "/old") (bytes "/new" ++ 63 :: bytes "x=1") =
      ⟨bytes "/old", bytes "/new", bytes "x=1", none⟩ ∧
    AsyncWebRewrite.mk' (bytes "/old") (bytes "/plain") =
      ⟨bytes "/old", bytes "/plain", [], none⟩ :=
  ⟨(C10_rewrite_ctor_split (bytes "/old")).1 (bytes "/new") (bytes "x=1")
      (by decide) (by decide),
   (C10_rewrite_ctor_split (bytes "/old")).2.1 (bytes "/plain") (by decide)⟩

theorem charLower_idem (b : Nat) : charLower (charLower b) = charLower b := by
  unfold charLower
  split_ifs <;> omega

theorem lowerStr_idem (s : Str) : lowerStr (lowerStr s) = lowerStr s := by
  induction s with
  | nil => rfl
  | cons b rest ih =>
    simp only [lowerStr, List.map_cons] at ih ⊢
    rw [charLower_idem, ih]

theorem find?_first {α : Type} (p : α → Bool) (l : List α) (a : α)
    (h : l.find? p = some a) :
    ∃ pre post, l = pre ++ a :: post ∧ p a = true ∧
      ∀ x ∈ pre, p x = false := by
  induction l with
  | nil => simp at h
  | cons b rest ih =>
    by_cases hb : p b = true
    · rw [List.find?_cons_of_pos _ hb] at h
      obtain rfl : b = a := by injection h
      exact ⟨[], rest, rfl, hb, by intro x hx; simp at hx⟩
    · rw [List.find?_cons_of_neg _ (by simpa using hb)] at h
      obtain ⟨pre, post, hl, hpa, hpre⟩ := ih h
      refine ⟨b :: pre, post, by simp [hl], hpa, ?_⟩
      intro x hx
      rcases List.mem_cons.mp hx with rfl | hx
      · simpa using hb
      · exact hpre x hx

theorem find?_append_some {α : Type} (p : α → Bool) (l₁ l₂ : List α) (a : α)
    (h : l₁.find? p = some a) : (l₁ ++ l₂).find? p = some a := by
  induction l₁ with
  | nil => simp at h
  | cons b rest ih =>
    by_cases hb : p b = true
    · rw [List.find?_cons_of_pos _ hb] at h
      simpa [List.find?_cons_of_pos _ hb] using h
    · rw [List.find?_cons_of_neg _ (by simpa using hb)] at h
      simpa [List.find?_cons_of_neg _ (by simpa using hb)] using ih h

/-- C2: header lookup by name returns the first entry of the ordered header
list whose name matches ASCII-case-insensitively; the lookup result is
unchanged by re-casing the query; `hasHeader` is exactly "some entry
matches"; appending a repeated header keeps every earlier entry and does not
change what the lookup returns. -/
theorem C2_header_lookup :
    (∀ hs n h, getHeaderByName hs n = some h →
      ∃ pre post, hs = pre ++ h :: post ∧
        equalsIgnoreCase h.name n = true ∧
        ∀ h' ∈ pre, equalsIgnoreCase h'.name n = false) ∧
    (∀ hs n, getHeaderByName hs (lowerStr n) = getHeaderByName hs n) ∧
    (∀ hs n, hasHeaderModel hs n = true ↔
      ∃ h ∈ hs, equalsIgnoreCase h.name n = true) ∧
    (∀ hs h n, hasHeaderModel hs n = true →
      getHeaderByName (addHeaderModel hs h) n = getHeaderByName hs n) ∧
    (∀ hs h, addHeaderModel hs h = hs ++ [h]) := by
  refine ⟨?_, ?_, ?_, ?_, fun _ _ => rfl⟩
  · intro hs n h hfind
    exact find?_first _ hs h hfind
  · intro hs n
    simp only [getHeaderByName, equalsIgnoreCase, lowerStr_idem]
  · intro hs n
    simp only [hasHeaderModel, getHeaderByName, Option.isSome_iff_exists]
    constructor
    · rintro ⟨h, hfind⟩
      have hmem := List.find?_some hfind
      have hin := List.mem_of_find?_eq_some hfind
      exact ⟨h, hin, hmem⟩
    · rintro ⟨h, hin, hmatch⟩
      have : (hs.find? fun h => equalsIgnoreCase h.name n).isSome := by
        rw [List.find?_isSome]
        exact ⟨h, hin, hmatch⟩
      exact Option.isSome_iff_exists.mp this
  · intro hs h n hhas
    rw [hasHeaderModel, Option.isSome_iff_exists] at hhas
    obtain ⟨h', hfind⟩ := hhas
    have h2 : getHeaderByName (addHeaderModel hs h) n = some h' :=
      find?_append_some _ hs [h] h' hfind
    rw [h2, hfind]

/-- C2 witness: on a list with a repeated `Host` header, the lookup under a
mixed-case query returns the first entry. -/
theorem C2_witness :
    ∃ pre post, twoHostHeaders =
        pre ++ AsyncWebHeader.mk (bytes "Host") (bytes "a") :: post ∧
      equalsIgnoreCase (bytes "Host") (bytes "hOsT") = true ∧
      ∀ h' ∈ pre, equalsIgnoreCase h'.name (bytes "hOsT") = false :=
  C2_header_lookup.1 twoHostHeaders (bytes "hOsT")
    ⟨bytes "Host", bytes "a"⟩ (by decide)

theorem getElem?_isSome_iff_lt {α : Type} (l : List α) (i : Nat) :
    l[i]?.isSome = true ↔ i < l.length := by
  induction l generalizing i with
  | nil => simp
  | cons a rest ih =>
    cases i with
    | zero => simp
    | succ n => simpa using ih n

theorem getElem?_eq_none_of_len_le {α : Type} (l : List α) (i : Nat)
    (h : l.length ≤ i) : l[i]? = none := by
  induction l generalizing i with
  | nil => simp
  | cons a rest ih =>
    cases i with
    | zero => simp at h
    | succ n => simpa using ih n (by simpa using h)

/-- C8: the by-index accessors `header(i)`, `headerName(i)` and `pathArg(i)`
are total — in range they give the `i`-th entry's value or name and out of
range they give the shared empty string — whereas `arg(i)` and `argName(i)`
dereference `getParam(i)` unchecked and are defined exactly when
`i < params()`. -/
theorem C8_index_accessors :
    (∀ hs i h, hs[i]? = some h →
      headerIdx hs i = h.value ∧ headerNameIdx hs i = h.name) ∧
    (∀ hs : List AsyncWebHeader, ∀ i, hs.length ≤ i →
      headerIdx hs i = emptyStringM ∧ headerNameIdx hs i = emptyStringM) ∧
    (∀ pp i s, pp[i]? = some s → pathArgIdx pp i = s) ∧
    (∀ pp : List Str, ∀ i, pp.length ≤ i → pathArgIdx pp i = emptyStringM) ∧
    (∀ ps i, (argIdx ps i).isSome = true ↔ i < ps.length) ∧
    (∀ ps i, (argNameIdx ps i).isSome = true ↔ i < ps.length) := by
  refine ⟨?_, ?_, ?_, ?_, ?_, ?_⟩
  · intro hs i h hsome
    simp [headerIdx, headerNameIdx, getHeaderIdx, hsome]
  · intro hs i hlen
    simp [headerIdx, headerNameIdx, getHeaderIdx,
      getElem?_eq_none_of_len_le hs i hlen]
  · intro pp i s hsome
    simp [pathArgIdx, hsome]
  · intro pp i hlen
    simp [pathArgIdx, getElem?_eq_none_of_len_le pp i hlen]
  · intro ps i
    simp [argIdx, getParamIdx, getElem?_isSome_iff_lt]
  · intro ps i
    simp [argNameIdx, getParamIdx, getElem?_isSome_iff_lt]

/-- C8 witness: the accessors evaluated on a one-header, one-parameter
request at indices 0 and 1. -/
theorem C8_witness :
    (headerIdx twoHostHeaders 0 = bytes "a" ∧
      headerNameIdx twoHostHeaders 0 = bytes "Host") ∧
    (headerIdx twoHostHeaders 5 = emptyStringM ∧
      headerNameIdx twoHostHeaders 5 = emptyStringM) ∧
    ((argIdx [paramX] 0).isSome = true ↔ 0 < [paramX].length) :=
  ⟨C8_index_accessors.1 twoHostHeaders 0 ⟨bytes "Host", bytes "a"⟩ (by decide),
   C8_index_accessors.2.1 twoHostHeaders 5 (by decide),
   C8_index_accessors.2.2.2.2.1 [paramX] 0⟩

/-- C9: `arg(name)` and `header(name)` yield the `emptyString` reference
exactly when no entry matches, and existence is decided by that reference
identity, so a stored parameter or header whose value is the empty string is
still reported as existing. -/
theorem C9_empty_string_sentinel :
    (∀ ps n, argByName ps n = none ↔
      ∀ p ∈ ps, paramMatches p n false false = false) ∧
    (∀ hs n, headerValByName hs n = none ↔
      ∀ h ∈ hs, equalsIgnoreCase h.name n = false) ∧
    (∀ ps n p, p ∈ ps → paramMatches p n false false = true →
      hasArgModel ps n = true) ∧
    (∀ ps n p, getParamByName ps n false false = some p → p.value = [] →
      argByName ps n = some [] ∧ hasArgModel ps n = true) := by
  refine ⟨?_, ?_, ?_, ?_⟩
  · intro ps n
    simp [argByName, getParamByName, List.find?_eq_none]
  · intro hs n
    simp [headerValByName, getHeaderByName, List.find?_eq_none]
  · intro ps n p hmem hmatch
    have : (ps.find? fun p => paramMatches p n false false).isSome := by
      rw [List.find?_isSome]
      exact ⟨p, hmem, hmatch⟩
    simpa [hasArgModel, argByName, getParamByName] using this
  · intro ps n p hfind hval
    constructor
    · simp [argByName, getParamByName] at hfind ⊢
      rw [hfind]
      simp [hval]
    · simp [hasArgModel, argByName, getParamByName] at hfind ⊢
      have hmem : p ∈ ps := List.mem_of_find?_eq_some hfind
      have hmatch := List.find?_some hfind
      exact ⟨p, hmem, by simpa using hmatch⟩

/-- C9 witness: a parameter stored with empty value is still reported as
existing, while a missing name yields the `emptyString` reference. -/
theorem C9_witness :
    (argByName [paramEmptyVal] (bytes "e") = some [] ∧
      hasArgModel [paramEmptyVal] (bytes "e") = true) ∧
    (argByName [paramEmptyVal] (bytes "q") = none ↔
      ∀ p ∈ [paramEmptyVal], paramMatches p (bytes "q") false false = false) :=
  ⟨C9_empty_string_sentinel.2.2.2 [paramEmptyVal] (bytes "e") paramEmptyVal
      (by decide) (by decide),
   C9_empty_string_sentinel.1 [paramEmptyVal] (bytes "q")⟩

theorem urlDecode_error_mem_aux (n : Nat) :
    ∀ t : Str, t.length ≤ n → ∀ e : UrlDecodeErrorType,
      (urlDecodeCore t = .error e →
        e = .NOT_ENOUGH_DIGITS ∨ e = .INVALID_CHARACTERS) ∧
      (urlDecodePercent t = .error e →
        e = .NOT_ENOUGH_DIGITS ∨ e = .INVALID_CHARACTERS) := by
  induction n with
  | zero =>
    intro t ht e
    have : t = [] := List.eq_nil_of_length_eq_zero (Nat.le_zero.mp ht)
    subst this
    constructor
    · intro h; simp [urlDecodeCore] at h
    · intro h
      simp [urlDecodePercent] at h
      exact Or.inl h.symm
  | succ n ih =>
    intro t ht e
    constructor
    · intro h
      match t with
      | [] => simp [urlDecodeCore] at h
      | b :: rest =>
        have hlen : rest.length ≤ n := by
          simpa using Nat.lt_succ_iff.mp (Nat.lt_of_lt_of_le (by simp) ht)
        by_cases hb : b = 37
        · rw [urlDecodeCore, if_pos hb] at h
          exact (ih rest hlen e).2 h
        · by_cases hb2 : b = 43
          · rw [urlDecodeCore, if_neg hb, if_pos hb2] at h
            cases hc : urlDecodeCore rest with
            | ok s => rw [hc] at h; simp at h
            | error e2 =>
              rw [hc] at h
              simp at h
              exact (ih rest hlen e).1 (h ▸ hc)
          · rw [urlDecodeCore, if_neg hb, if_neg hb2] at h
            cases hc : urlDecodeCore rest with
            | ok s => rw [hc] at h; simp at h
            | error e2 =>
              rw [hc] at h
              simp at h
              exact (ih rest hlen e).1 (h ▸ hc)
    · intro h
      match t with
      | [] =>
        simp [urlDecodePercent] at h
        exact Or.inl h.symm
      | [x] =>
        simp [urlDecodePercent] at h
        exact Or.inl h.symm
      | h1 :: h2 :: tail =>
        have hlen : tail.length ≤ n := by
          simp at ht
          omega
        by_cases hhex : (isHexByte h1 && isHexByte h2) = true
        · rw [urlDecodePercent, if_pos hhex] at h
          cases hc : urlDecodeCore tail with
          | ok s => rw [hc] at h; simp at h
          | error e2 =>
            rw [hc] at h
            simp at h
            exact (ih tail hlen e).1 (h ▸ hc)
        · rw [urlDecodePercent, if_neg hhex] at h
          simp at h
          exact Or.inr h.symm

theorem urlDecodeCore_error_mem (t : Str) (e : UrlDecodeErrorType)
    (h : urlDecodeCore t = .error e) :
    e = .NOT_ENOUGH_DIGITS ∨ e = .INVALID_CHARACTERS :=
  (urlDecode_error_mem_aux t.length t (Nat.le_refl _) e).1 h

/-- C3: for every input, `urlDecode` stores `NONE` alongside the decoded
string on success, and on malformed percent-encoding stores
`NOT_ENOUGH_DIGITS` or `INVALID_CHARACTERS` and returns the empty string. -/
theorem C3_urlDecode_error_contract (text : Str) :
    (∀ s, urlDecodeCore text = .ok s →
      urlDecode text = (s, UrlDecodeErrorType.NONE)) ∧
    (∀ e, urlDecodeCore text = .error e →
      urlDecode text = ([], e) ∧
      (e = UrlDecodeErrorType.NOT_ENOUGH_DIGITS ∨
        e = UrlDecodeErrorType.INVALID_CHARACTERS)) := by
  constructor
  · intro s hs
    simp [urlDecode, hs]
  · intro e he
    exact ⟨by simp [urlDecode, he], urlDecodeCore_error_mem text e he⟩

/-- C3 witness: a well-formed input decodes with `NONE`; `"x%2"` runs out of
digits and `"x%zz"` hits invalid characters, each returning the empty
string with the matching error. -/
theorem C3_witness :
    urlDecode (bytes "a%3Fb") = (bytes "a?b", UrlDecodeErrorType.NONE) ∧
    urlDecode (bytes "x%2") = ([], UrlDecodeErrorType.NOT_ENOUGH_DIGITS) ∧
    urlDecode (bytes "x%zz") = ([], UrlDecodeErrorType.INVALID_CHARACTERS) :=
  ⟨(C3_urlDecode_error_contract (bytes "a%3Fb")).1 (bytes "a?b") (by rfl),
   ((C3_urlDecode_error_contract (bytes "x%2")).2
      UrlDecodeErrorType.NOT_ENOUGH_DIGITS (by rfl)).1,
   ((C3_urlDecode_error_contract (bytes "x%zz")).2
      UrlDecodeErrorType.INVALID_CHARACTERS (by rfl)).1⟩

theorem isHexByte_hexDigitUpper (n : Nat) (h : n < 16) :
    isHexByte (hexDigitUpper n) = true := by
  by_cases h10 : n < 10
  · simp [isHexByte, hexDigitUpper, h10]
    omega
  · simp [isHexByte, hexDigitUpper, h10]
    omega

theorem hexValByte_hexDigitUpper (n : Nat) (h : n < 16) :
    hexValByte (hexDigitUpper n) = n := by
  by_cases h10 : n < 10
  · have : 48 ≤ n + 48 ∧ n + 48 ≤ 57 := by omega
    simp [hexValByte, hexDigitUpper, h10, this]
  · have h1 : ¬ (48 ≤ n + 55 ∧ n + 55 ≤ 57) := by omega
    have h2 : 65 ≤ n + 55 ∧ n + 55 ≤ 70 := by omega
    simp [hexValByte, hexDigitUpper, h10, h1, h2]
    omega

theorem urlDecodeCore_urlEncode (s : Str) (h : ∀ b ∈ s, b < 256) :
    urlDecodeCore (urlEncode s) = .ok s := by
  induction s with
  | nil => simp [urlEncode, urlDecodeCore]
  | cons b rest ih =>
    have hb : b < 256 := h b (by simp)
    have hrest : ∀ x ∈ rest, x < 256 := fun x hx => h x (by simp [hx])
    have ihr := ih hrest
    by_cases hu : isUnreservedByte b = true
    · have hbor : (48 ≤ b ∧ b ≤ 57) ∨ (65 ≤ b ∧ b ≤ 90) ∨
          (97 ≤ b ∧ b ≤ 122) ∨ b = 45 ∨ b = 95 ∨ b = 46 ∨ b = 126 := by
        simpa [isUnreservedByte, Bool.or_eq_true, decide_eq_true_eq,
          or_assoc] using hu
      have hb37 : ¬ b = 37 := by rcases hbor with h|h|h|h|h|h|h <;> omega
      have hb43 : ¬ b = 43 := by rcases hbor with h|h|h|h|h|h|h <;> omega
      rw [urlEncode, if_pos hu, urlDecodeCore, if_neg hb37, if_neg hb43, ihr]
    · have hd1 : b / 16 < 16 := by omega
      have hd2 : b % 16 < 16 := by omega
      have hhex : (isHexByte (hexDigitUpper (b / 16)) &&
          isHexByte (hexDigitUpper (b % 16))) = true := by
        rw [isHexByte_hexDigitUpper _ hd1, isHexByte_hexDigitUpper _ hd2]
        rfl
      rw [urlEncode, if_neg hu, urlDecodeCore, if_pos rfl, urlDecodePercent,
        if_pos hhex, ihr, hexValByte_hexDigitUpper _ hd1,
        hexValByte_hexDigitUpper _ hd2]
      have : b / 16 * 16 + b % 16 = b := by omega
      rw [this]

/-- C7: `urlDecode` is a left inverse of `urlEncode`: for every byte string
`s`, decoding the encoding succeeds with no error and returns `s` itself
(hence in particular whenever the decoder accepts `urlEncode s`, the result
is `s`). -/
theorem C7_decode_left_inverse (s : Str) (h : ∀ b ∈ s, b < 256) :
    urlDecode (urlEncode s) = (s, UrlDecodeErrorType.NONE) := by
  rw [urlDecode, urlDecodeCore_urlEncode s h]

/-- C7 witness: round trip of `"a b?"`, which exercises both the
pass-through and the percent-encoded paths. -/
theorem C7_witness :
    urlDecode (urlEncode (bytes "a b?")) = (bytes "a b?", UrlDecodeErrorType.NONE) :=
  C7_decode_left_inverse (bytes "a b?") (by decide)

/-- C6: each of the seven method constants is a single power of two, they
are pairwise distinct, `HTTP_ANY` is their bitwise union, and a successful
request-line parse yields one of the seven single-bit masks. -/
theorem C6_method_bits :
    (∀ m ∈ methodBits, ∃ k : Fin 7, m = 2 ^ k.val) ∧
    methodBits.Nodup ∧
    HTTP_ANY = methodBits.foldr (fun a b => a ||| b) 0 ∧
    (∀ tok m, parseMethodToken tok = some m →
      m ∈ methodBits ∧ ∃ k : Fin 7, m = 2 ^ k.val) := by
  refine ⟨by decide, by decide, by decide, ?_⟩
  intro tok m hp
  rw [parseMethodToken] at hp
  split_ifs at hp <;>
    first
      | (injection hp with h; subst h; exact ⟨by decide, by decide⟩)
      | exact Option.noConfusion hp

/-- C6 witness: parsing the token `GET` yields `HTTP_GET`, which is a
single-bit member of the method set. -/
theorem C6_witness :
    HTTP_GET ∈ methodBits ∧ ∃ k : Fin 7, HTTP_GET = 2 ^ k.val :=
  C6_method_bits.2.2.2 (bytes "GET") HTTP_GET (by decide)

/-- C4: `match` is true exactly when `from` equals the current URL and the
filter passes, the filter passing vacuously when none is installed; applying
the rewrites in insertion order, the first match wins and the result is that
single rewrite's application — rewrites never chain. -/
theorem C4_rewrite_match (req : RequestM) :
    (∀ r : AsyncWebRewrite,
      r.matchReq req = true ↔
        (r.fromUrl = req.url ∧
          (r.filter = none ∨ ∃ f, r.filter = some f ∧ f req = true))) ∧
    (∀ r : AsyncWebRewrite, r.filter = none → r.filterPass req = true) ∧
    (∀ pre r rest, (∀ r' ∈ pre, r'.matchReq req = false) →
      r.matchReq req = true →
      rewriteRequest (pre ++ r :: rest) req = applyRewrite r req) ∧
    (∀ rs, (∀ r ∈ rs, r.matchReq req = false) →
      rewriteRequest rs req = req) := by
  refine ⟨?_, ?_, ?_, ?_⟩
  · intro r
    cases hf : r.filter with
    | none =>
      simp [AsyncWebRewrite.matchReq, AsyncWebRewrite.filterPass, hf]
    | some f =>
      simp [AsyncWebRewrite.matchReq, AsyncWebRewrite.filterPass, hf]
  · intro r hf
    simp [AsyncWebRewrite.filterPass, hf]
  · intro pre r rest hpre hr
    induction pre with
    | nil => simp [rewriteRequest, hr]
    | cons r' pre' ih =>
      have h1 : r'.matchReq req = false := hpre r' (by simp)
      have h2 : ∀ x ∈ pre', x.matchReq req = false :=
        fun x hx => hpre x (by simp [hx])
      simp [rewriteRequest, h1, ih h2]
  · intro rs hall
    induction rs with
    | nil => rfl
    | cons r' rest' ih =>
      have h1 : r'.matchReq req = false := hall r' (by simp)
      have h2 : ∀ x ∈ rest', x.matchReq req = false :=
        fun x hx => hall x (by simp [hx])
      simp [rewriteRequest, h1, ih h2]

/-- C4 witness: with the single rewrite `/old -> /new?x=1` installed and the
request at `/old`, the rewrite applies as the first match. -/
theorem C4_witness :
    rewriteRequest ([] ++ rwOld :: []) reqOld = applyRewrite rwOld reqOld :=
  (C4_rewrite_match reqOld).2.2.1 [] rwOld []
    (by intro r' h; simp at h) (by decide)

theorem respInvS_step (r : ResponseSt) (n : Nat) (r' : ResponseSt)
    (hstep : RespStep r n r') (hinv : respInvS r) : respInvS r' := by
  obtain ⟨h1, h2, h3⟩ := hinv
  cases hstep with
  | respond m hs hn => refine ⟨?_, ?_, ?_⟩ <;> simp <;> omega
  | ackHead a m hs ha hn => refine ⟨?_, ?_, ?_⟩ <;> simp <;> omega
  | ackContent a m hs ha hn => refine ⟨?_, ?_, ?_⟩ <;> simp <;> omega
  | ackWait a hs ha => refine ⟨?_, ?_, ?_⟩ <;> simp <;> omega
  | idleEnd hs => exact ⟨h1, h2, h3⟩
  | idleFailed hs => exact ⟨h1, h2, h3⟩
  | fail hs => exact ⟨h1, h2, h3⟩

theorem respInvS_reachable (r : ResponseSt) (h : RespReachable r) :
    respInvS r := by
  induction h with
  | init head content => exact ⟨Nat.le_refl _, rfl, by simp [initResponse]⟩
  | step r n r' hr hstep ih => exact respInvS_step r n r' hstep ih

theorem stateRank_le_four (st : WebResponseState) : stateRank st ≤ 4 := by
  cases st <;> simp [stateRank]

theorem le_stateRank_ite (c : Prop) [Decidable c] (a b : WebResponseState)
    (k : Nat) (h1 : k ≤ stateRank a) (h2 : k ≤ stateRank b) :
    k ≤ stateRank (if c then a else b) := by
  split
  · exact h1
  · exact h2

theorem stateRank_mono (r : ResponseSt) (n : Nat) (r' : ResponseSt)
    (hstep : RespStep r n r') : stateRank r.state ≤ stateRank r'.state := by
  cases hstep <;> (try simp_all) <;>
    first
      | exact Nat.le_refl _
      | exact stateRank_le_four _
      | exact le_stateRank_ite _ _ _ _ (by decide) (by decide)
      | decide

/-- C5: every reachable response satisfies
`ackedLength ≤ sentLength ≤ writtenLength ≤ headLength + contentLength`;
every event moves the state monotonically through
SETUP, HEADERS, CONTENT, WAIT_ACK towards END or FAILED; and an event on a
response already in END or FAILED emits zero bytes. -/
theorem C5_response_invariants :
    (∀ r : ResponseSt, RespReachable r → respInv r) ∧
    (∀ (r : ResponseSt) (n : Nat) (r' : ResponseSt), RespStep r n r' →
      stateRank r.state ≤ stateRank r'.state) ∧
    (∀ (r : ResponseSt) (n : Nat) (r' : ResponseSt), RespStep r n r' →
      (r.state = RESPONSE_END ∨ r.state = RESPONSE_FAILED) → n = 0) := by
  refine ⟨?_, stateRank_mono, ?_⟩
  · intro r h
    obtain ⟨h1, h2, h3⟩ := respInvS_reachable r h
    exact ⟨h2 ▸ h1, Nat.le_of_eq h2, h3⟩
  · intro r n r' hstep hend
    rcases hend with h | h <;> cases hstep <;> simp_all

/-- C5 witness: the invariant holds at a concrete freshly-created response
with a 10-byte head and 5-byte body, and a concrete finished response
ignores an event without emitting bytes. -/
theorem C5_witness :
    respInv (initResponse 10 5) ∧ (0 : Nat) = 0 :=
  ⟨C5_response_invariants.1 (initResponse 10 5) (RespReachable.init 10 5),
   C5_response_invariants.2.2 ⟨RESPONSE_END, 10, 5, 15, 15, 15⟩ 0
     ⟨RESPONSE_END, 10, 5, 15, 15, 15⟩
     (RespStep.idleEnd ⟨RESPONSE_END, 10, 5, 15, 15, 15⟩ rfl)
     (Or.inl rfl)⟩

